import Mathlib

/-!
Verification of the ICU4X excerpt: canonical decomposition
(`components/normalizer/src/properties.rs`), the BCP-47 language-identifier
parser (`components/locid/src/parser/langid.rs`) and the grapheme-cluster
segmenter (`experimental/segmenter/src/grapheme.rs`).

Machine integers are modelled as `Nat` with explicit `% 2^32` / `% 2^16`
where the Rust code casts or wraps.  The external data (tries and scalar
tables supplied by the data provider) is modelled as explicit fields of the
structures, so every theorem quantifies over the data.
-/

namespace Icu4x

/-! ### Constants

Modelled from the spec: the Hangul bases/counts (`HANGUL_{L,V,T,S}_BASE`,
`HANGUL_{N,S,T}_COUNT`) and the marker constants live in the normalizer
crate's `lib.rs`, which is not part of the excerpt.  The Hangul constants
are the standard Unicode values the spec names; the markers are small
sentinels whose relative order (`BACKWARD_COMBINING_STARTER_MARKER`,
`NON_ROUND_TRIP_MARKER`, the special-non-starter marker, `FDFA_MARKER`)
is what the decode steps in the spec rely on. -/

def HANGUL_S_BASE : Nat := 0xAC00
def HANGUL_L_BASE : Nat := 0x1100
def HANGUL_V_BASE : Nat := 0x1161
def HANGUL_T_BASE : Nat := 0x11A7
def HANGUL_T_COUNT : Nat := 28
def HANGUL_N_COUNT : Nat := 588
def HANGUL_S_COUNT : Nat := 11172

def BACKWARD_COMBINING_STARTER_MARKER : Nat := 1
def NON_ROUND_TRIP_MARKER : Nat := 1
def SPECIAL_NON_STARTER_DECOMPOSITION_MARKER : Nat := 2
def SPECIAL_NON_STARTER_DECOMPOSITION_MARKER_U16 : Nat := 2
def FDFA_MARKER : Nat := 3

/-- Modelled from the spec / `lib.rs`: `char_from_u16` converts a 16-bit
trie half to a `char` without checking (the data guarantees validity);
`Char.ofNat` is the total counterpart. -/
def char_from_u16 (u : Nat) : Char := Char.ofNat u

/-- Modelled from the spec / `lib.rs`: `char_from_u24` converts a 24-bit
table entry to a `char`. -/
def char_from_u24 (u : Nat) : Char := Char.ofNat u

/-- Modelled from the spec / `lib.rs`: `in_inclusive_range(c, start, end)`
tests `start <= c <= end` on scalar values. -/
def in_inclusive_range (c start_ end_ : Char) : Bool :=
  start_.toNat ≤ c.toNat && c.toNat ≤ end_.toNat

/-- The outcome of non-recursive canonical decomposition of a character
(`properties.rs`, enum `Decomposed`). -/
inductive Decomposed where
  /-- The character is its own canonical decomposition. -/
  | Default : Decomposed
  /-- The character decomposes to a single different character. -/
  | Singleton : Char → Decomposed
  /-- The character decomposes to two characters. -/
  | Expansion : Char → Char → Decomposed
deriving DecidableEq, Repr

/-- The decomposition-data payload: the trie mapping a scalar value to a
packed 32-bit value.  The trie itself is external data, so it is modelled
as an arbitrary function; `% 2^32` at the use site models the `u32`
return type of `CodePointTrie::get`. -/
structure CanonicalDecompositionData where
  trie : Nat → Nat

/-- The decomposition-tables payload: the 16-bit and 24-bit scalar
tables (`scalars16`, `scalars24`). -/
structure CanonicalDecompositionTables where
  scalars16 : List Nat
  scalars24 : List Nat

/-- The non-recursive decomposition supplement payload: its own trie and
24-bit scalar table. -/
structure NonRecursiveDecompositionSupplement where
  trie : Nat → Nat
  scalars24 : List Nat

/-- `CanonicalDecomposition` from `properties.rs`: the three data payloads. -/
structure CanonicalDecomposition where
  decompositions : CanonicalDecompositionData
  tables : CanonicalDecompositionTables
  non_recursive : NonRecursiveDecompositionSupplement

namespace CanonicalDecomposition

/-- The non-recursive-supplement tail of `decompose_non_hangul`
(`properties.rs` lines 285-312): reached by the `break`s of the decode
loop.  Looks the character up in the supplement trie; value `0` is the
GIGO fallback, nonzero lead/trail halves decode to BMP characters, and a
zero lead makes trail an offset-plus-one into the supplement's 24-bit
table. -/
def decomposeSupplement (self : CanonicalDecomposition) (c : Char) : Decomposed :=
  let non_recursive_decomposition := self.non_recursive.trie c.toNat % 4294967296
  if non_recursive_decomposition = 0 then
    -- GIGO case
    Decomposed.Default
  else
    let trail_or_complex := non_recursive_decomposition / 65536
    let lead := non_recursive_decomposition % 65536
    if lead ≠ 0 ∧ trail_or_complex ≠ 0 then
      -- Decomposition into two BMP characters
      Decomposed.Expansion (char_from_u16 lead) (char_from_u16 trail_or_complex)
    else if lead ≠ 0 then
      -- Decomposition into one BMP character
      Decomposed.Singleton (char_from_u16 lead)
    else
      -- Decomposition into two non-BMP characters
      -- Low is offset into a table plus one to keep it non-zero.
      let offset := trail_or_complex - 1
      match self.non_recursive.scalars24[offset]?, self.non_recursive.scalars24[offset + 1]? with
      | some first, some second =>
          Decomposed.Expansion (char_from_u24 first) (char_from_u24 second)
      | _, _ =>
          -- GIGO case
          Decomposed.Default

/-- `decompose_non_hangul` from `properties.rs`: non-recursive canonical
decomposition except Hangul syllables are reported as `Default`.  The
Rust `loop` is only broken out of as goto-forward to the supplement
lookup, embedded here as calls to `decomposeSupplement`. -/
def decompose_non_hangul (self : CanonicalDecomposition) (c : Char) : Decomposed :=
  let decomposition := self.decompositions.trie c.toNat % 4294967296
  if decomposition ≤ BACKWARD_COMBINING_STARTER_MARKER then
    Decomposed.Default
  else
    let trail_or_complex := decomposition / 65536
    let lead := decomposition % 65536
    if lead > NON_ROUND_TRIP_MARKER ∧ trail_or_complex ≠ 0 then
      -- Decomposition into two BMP characters: starter and non-starter
      if in_inclusive_range c (Char.ofNat 0x1F71) (Char.ofNat 0x1FFB) then
        -- Look in the other trie due to oxia singleton
        -- mappings to corresponding character with tonos.
        self.decomposeSupplement c
      else
        Decomposed.Expansion (char_from_u16 lead) (char_from_u16 trail_or_complex)
    else if lead > NON_ROUND_TRIP_MARKER then
      -- Decomposition into one BMP character or non-starter
      if lead = SPECIAL_NON_STARTER_DECOMPOSITION_MARKER_U16 then
        -- Non-starter
        if ¬ in_inclusive_range c (Char.ofNat 0x0340) (Char.ofNat 0x0F81) then
          Decomposed.Default
        else if c.toNat = 0x0340 then
          -- COMBINING GRAVE TONE MARK
          Decomposed.Singleton (Char.ofNat 0x0300)
        else if c.toNat = 0x0341 then
          -- COMBINING ACUTE TONE MARK
          Decomposed.Singleton (Char.ofNat 0x0301)
        else if c.toNat = 0x0343 then
          -- COMBINING GREEK KORONIS
          Decomposed.Singleton (Char.ofNat 0x0313)
        else if c.toNat = 0x0344 then
          -- COMBINING GREEK DIALYTIKA TONOS
          Decomposed.Expansion (Char.ofNat 0x0308) (Char.ofNat 0x0301)
        else if c.toNat = 0x0F73 then
          -- TIBETAN VOWEL SIGN II
          Decomposed.Expansion (Char.ofNat 0x0F71) (Char.ofNat 0x0F72)
        else if c.toNat = 0x0F75 then
          -- TIBETAN VOWEL SIGN UU
          Decomposed.Expansion (Char.ofNat 0x0F71) (Char.ofNat 0x0F74)
        else if c.toNat = 0x0F81 then
          -- TIBETAN VOWEL SIGN REVERSED II
          Decomposed.Expansion (Char.ofNat 0x0F71) (Char.ofNat 0x0F80)
        else
          Decomposed.Default
      else
        Decomposed.Singleton (char_from_u16 lead)
    -- The recursive decomposition of ANGSTROM SIGN is in the complex
    -- decomposition structure to avoid a branch in `potential_passthrough`
    -- for the BMP case.
    else if c.toNat = 0x212B then
      -- ANGSTROM SIGN
      Decomposed.Singleton (Char.ofNat 0x00C5)
    else
      -- Complex decomposition: 15..13 of trail_or_complex is length minus
      -- two (16-bit case) / minus one (32-bit case), bit 12 the
      -- all-non-starters flag, 11..0 the start offset in the logical
      -- concatenation of the scalar tables.
      let offset := trail_or_complex % 4096
      let tables := self.tables
      if offset < tables.scalars16.length then
        if trail_or_complex / 8192 ≠ 0 then
          -- i.e. logical len isn't 2
          self.decomposeSupplement c
        else
          match tables.scalars16[offset]?, tables.scalars16[offset + 1]? with
          | some first, some second =>
              -- Two BMP starters
              Decomposed.Expansion (char_from_u16 first) (char_from_u16 second)
          | _, _ =>
              -- GIGO case
              Decomposed.Default
      else
        let len := trail_or_complex / 8192 + 1
        if len > 2 then
          self.decomposeSupplement c
        else
          let offset24 := offset - tables.scalars16.length
          match tables.scalars24[offset24]? with
          | some first =>
              if len = 1 then
                Decomposed.Singleton (char_from_u24 first)
              else
                match tables.scalars24[offset24 + 1]? with
                | some second =>
                    Decomposed.Expansion (char_from_u24 first) (char_from_u24 second)
                | none =>
                    -- GIGO case
                    Decomposed.Default
          | none =>
              -- GIGO case
              Decomposed.Default

/-- `decompose` from `properties.rs`: non-recursive canonical
decomposition including Hangul.  `wrapping_sub` on `u32` is modelled as
`(x + 2^32 - y) % 2^32`. -/
def decompose (self : CanonicalDecomposition) (c : Char) : Decomposed :=
  let lvt := (c.toNat + 4294967296 - HANGUL_S_BASE) % 4294967296
  if lvt ≥ HANGUL_S_COUNT then
    self.decompose_non_hangul c
  else
    let t := lvt % HANGUL_T_COUNT
    if t = 0 then
      let l := lvt / HANGUL_N_COUNT
      let v := (lvt % HANGUL_N_COUNT) / HANGUL_T_COUNT
      Decomposed.Expansion (Char.ofNat (HANGUL_L_BASE + l)) (Char.ofNat (HANGUL_V_BASE + v))
    else
      let lv := lvt - t
      Decomposed.Expansion (Char.ofNat (HANGUL_S_BASE + lv)) (Char.ofNat (HANGUL_T_BASE + t))

end CanonicalDecomposition

/-- A `CanonicalDecomposition` whose tries and tables are all empty; any
instance decomposes Hangul the same way, so this one serves for the
closed Hangul examples. -/
def emptyDecomposition : CanonicalDecomposition :=
  { decompositions := { trie := fun _ => 0 }
    tables := { scalars16 := [], scalars24 := [] }
    non_recursive := { trie := fun _ => 0, scalars24 := [] } }

/-- Helper for C1: the Hangul branch of `decompose` in closed form. -/
theorem decompose_hangul_aux (d : CanonicalDecomposition) (c : Char)
    (h1 : HANGUL_S_BASE ≤ c.toNat) (h2 : c.toNat < HANGUL_S_BASE + HANGUL_S_COUNT) :
    d.decompose c =
      (let lvt := c.toNat - HANGUL_S_BASE
       let t := lvt % HANGUL_T_COUNT
       if t = 0 then
         Decomposed.Expansion (Char.ofNat (HANGUL_L_BASE + lvt / HANGUL_N_COUNT))
           (Char.ofNat (HANGUL_V_BASE + (lvt % HANGUL_N_COUNT) / HANGUL_T_COUNT))
       else
         Decomposed.Expansion (Char.ofNat (HANGUL_S_BASE + (lvt - t)))
           (Char.ofNat (HANGUL_T_BASE + t))) := by
  simp only [HANGUL_S_BASE, HANGUL_S_COUNT] at h1 h2
  simp only [CanonicalDecomposition.decompose, HANGUL_S_BASE, HANGUL_S_COUNT,
    HANGUL_T_COUNT, HANGUL_N_COUNT, HANGUL_L_BASE, HANGUL_V_BASE, HANGUL_T_BASE]
  rw [show (c.toNat + 4294967296 - 0xAC00) % 4294967296 = c.toNat - 0xAC00 by omega]
  rw [if_neg (by omega)]

end Icu4x

namespace Icu4x

/-- C1: for every char `c` in the Hangul syllable range
(`HANGUL_S_BASE ≤ c < HANGUL_S_BASE + HANGUL_S_COUNT`), `decompose c` is
computed in closed form: with `lvt = c - HANGUL_S_BASE` and
`t = lvt % HANGUL_T_COUNT`, if `t = 0` the result is
`Expansion(HANGUL_L_BASE + lvt / HANGUL_N_COUNT, HANGUL_V_BASE + (lvt % HANGUL_N_COUNT) / HANGUL_T_COUNT)`,
otherwise `Expansion(HANGUL_S_BASE + (lvt - t), HANGUL_T_BASE + t)`; in
particular `decompose U+AC00 = Expansion(U+1100, U+1161)` and
`decompose U+AC01 = Expansion(U+AC00, U+11A8)`. -/
theorem claim_C1_hangul_closed_form (d : CanonicalDecomposition) :
    (∀ c : Char, HANGUL_S_BASE ≤ c.toNat → c.toNat < HANGUL_S_BASE + HANGUL_S_COUNT →
      d.decompose c =
        (let lvt := c.toNat - HANGUL_S_BASE
         let t := lvt % HANGUL_T_COUNT
         if t = 0 then
           Decomposed.Expansion (Char.ofNat (HANGUL_L_BASE + lvt / HANGUL_N_COUNT))
             (Char.ofNat (HANGUL_V_BASE + (lvt % HANGUL_N_COUNT) / HANGUL_T_COUNT))
         else
           Decomposed.Expansion (Char.ofNat (HANGUL_S_BASE + (lvt - t)))
             (Char.ofNat (HANGUL_T_BASE + t)))) ∧
    d.decompose (Char.ofNat 0xAC00) =
      Decomposed.Expansion (Char.ofNat 0x1100) (Char.ofNat 0x1161) ∧
    d.decompose (Char.ofNat 0xAC01) =
      Decomposed.Expansion (Char.ofNat 0xAC00) (Char.ofNat 0x11A8) := by
  refine ⟨fun c h1 h2 => decompose_hangul_aux d c h1 h2, ?_, ?_⟩
  · exact (decompose_hangul_aux d (Char.ofNat 0xAC00) (by decide) (by decide)).trans (by decide)
  · exact (decompose_hangul_aux d (Char.ofNat 0xAC01) (by decide) (by decide)).trans (by decide)

/-- Witness for C1: the theorem applied to the empty data instance at
U+AC01, a syllable with a trailing consonant. -/
theorem claim_C1_witness :
    emptyDecomposition.decompose (Char.ofNat 0xAC01) =
      Decomposed.Expansion (Char.ofNat 0xAC00) (Char.ofNat 0x11A8) :=
  (claim_C1_hangul_closed_form emptyDecomposition).2.2

/-- C10: `decompose U+212B` (ANGSTROM SIGN) returns
`Singleton U+00C5` through the hard-coded check taken before the complex
decode, whenever its trie value falls into the complex-decomposition
category (past the backward-combining marker, lead half not above the
non-round-trip marker). -/
theorem claim_C10_angstrom (d : CanonicalDecomposition)
    (hgt : d.decompositions.trie 0x212B % 4294967296 > BACKWARD_COMBINING_STARTER_MARKER)
    (hlead : d.decompositions.trie 0x212B % 4294967296 % 65536 ≤ NON_ROUND_TRIP_MARKER) :
    d.decompose (Char.ofNat 0x212B) = Decomposed.Singleton (Char.ofNat 0x00C5) := by
  have hc : (Char.ofNat 0x212B).toNat = 0x212B := by decide
  simp only [BACKWARD_COMBINING_STARTER_MARKER, NON_ROUND_TRIP_MARKER] at hgt hlead
  simp only [CanonicalDecomposition.decompose, CanonicalDecomposition.decompose_non_hangul,
    hc, HANGUL_S_BASE, HANGUL_S_COUNT, BACKWARD_COMBINING_STARTER_MARKER,
    NON_ROUND_TRIP_MARKER, SPECIAL_NON_STARTER_DECOMPOSITION_MARKER_U16]
  rw [if_pos (by norm_num)]
  rw [if_neg (by omega)]
  rw [if_neg (by rintro ⟨h1, -⟩; omega)]
  rw [if_neg (by omega)]
  simp

/-- Witness for C10: a concrete data instance whose trie sends U+212B
to a complex-decomposition descriptor. -/
theorem claim_C10_witness :
    ({ decompositions := { trie := fun _ => 0x00010000 }
       tables := { scalars16 := [], scalars24 := [] }
       non_recursive := { trie := fun _ => 0, scalars24 := [] } } :
        CanonicalDecomposition).decompose (Char.ofNat 0x212B) =
      Decomposed.Singleton (Char.ofNat 0x00C5) :=
  claim_C10_angstrom _ (by decide) (by decide)

/-- C2: for a char in the inclusive oxia range U+1F71..U+1FFB whose trie
value decodes to a direct two-BMP expansion (lead above the
non-round-trip marker, nonzero trail half), `decompose` does not use the
direct expansion but falls through to the non-recursive supplement
table. -/
theorem claim_C2_oxia_fall_through (d : CanonicalDecomposition) (c : Char)
    (hr1 : 0x1F71 ≤ c.toNat) (hr2 : c.toNat ≤ 0x1FFB)
    (hlead : d.decompositions.trie c.toNat % 4294967296 % 65536 > NON_ROUND_TRIP_MARKER)
    (htrail : d.decompositions.trie c.toNat % 4294967296 / 65536 ≠ 0) :
    d.decompose c = d.decomposeSupplement c := by
  simp only [NON_ROUND_TRIP_MARKER] at hlead
  simp only [CanonicalDecomposition.decompose, CanonicalDecomposition.decompose_non_hangul,
    HANGUL_S_BASE, HANGUL_S_COUNT, BACKWARD_COMBINING_STARTER_MARKER, NON_ROUND_TRIP_MARKER,
    in_inclusive_range]
  rw [if_pos (by omega)]
  rw [if_neg (by
    have := Nat.div_mul_le_self (d.decompositions.trie c.toNat % 4294967296) 65536
    omega)]
  rw [if_pos ⟨hlead, htrail⟩]
  have ha : (Char.ofNat 0x1F71).toNat = 0x1F71 := by decide
  have hb : (Char.ofNat 0x1FFB).toNat = 0x1FFB := by decide
  rw [if_pos (by simp only [ha, hb, Bool.and_eq_true, decide_eq_true_eq]; omega)]

/-- Witness for C2: U+1F71 with a trie value decoding to the
two-BMP-expansion category; the supplement trie maps it to the singleton
U+03AC, which is what `decompose` returns. -/
theorem claim_C2_witness :
    ({ decompositions := { trie := fun _ => 0x03010391 }
       tables := { scalars16 := [], scalars24 := [] }
       non_recursive := { trie := fun _ => 0x03AC, scalars24 := [] } } :
        CanonicalDecomposition).decompose (Char.ofNat 0x1F71) =
      ({ decompositions := { trie := fun _ => 0x03010391 }
         tables := { scalars16 := [], scalars24 := [] }
         non_recursive := { trie := fun _ => 0x03AC, scalars24 := [] } } :
          CanonicalDecomposition).decomposeSupplement (Char.ofNat 0x1F71) :=
  claim_C2_oxia_fall_through _ (Char.ofNat 0x1F71) (by decide) (by decide)
    (by decide) (by decide)

/-- A decomposition instance whose trie maps every code point to the
special-non-starter-decomposition marker; used to exhibit the
hard-coded special-non-starter results. -/
def specialMarkerDecomposition : CanonicalDecomposition :=
  { decompositions := { trie := fun _ => SPECIAL_NON_STARTER_DECOMPOSITION_MARKER }
    tables := { scalars16 := [], scalars24 := [] }
    non_recursive := { trie := fun _ => 0, scalars24 := [] } }

/-- C3 (amended): for every char whose trie value is the
special-non-starter-decomposition marker, `decompose_non_hangul` returns
the hard-coded table for the seven listed code points and `Default` for
every other code point in that category. -/
theorem claim_C3_special_non_starter (d : CanonicalDecomposition) (c : Char)
    (h : d.decompositions.trie c.toNat % 4294967296 =
      SPECIAL_NON_STARTER_DECOMPOSITION_MARKER) :
    d.decompose_non_hangul c =
      if c.toNat = 0x0340 then Decomposed.Singleton (Char.ofNat 0x0300)
      else if c.toNat = 0x0341 then Decomposed.Singleton (Char.ofNat 0x0301)
      else if c.toNat = 0x0343 then Decomposed.Singleton (Char.ofNat 0x0313)
      else if c.toNat = 0x0344 then Decomposed.Expansion (Char.ofNat 0x0308) (Char.ofNat 0x0301)
      else if c.toNat = 0x0F73 then Decomposed.Expansion (Char.ofNat 0x0F71) (Char.ofNat 0x0F72)
      else if c.toNat = 0x0F75 then Decomposed.Expansion (Char.ofNat 0x0F71) (Char.ofNat 0x0F74)
      else if c.toNat = 0x0F81 then Decomposed.Expansion (Char.ofNat 0x0F71) (Char.ofNat 0x0F80)
      else Decomposed.Default := by
  simp only [SPECIAL_NON_STARTER_DECOMPOSITION_MARKER] at h
  have ha : (Char.ofNat 0x0340).toNat = 0x0340 := by decide
  have hb : (Char.ofNat 0x0F81).toNat = 0x0F81 := by decide
  simp only [CanonicalDecomposition.decompose_non_hangul, h,
    BACKWARD_COMBINING_STARTER_MARKER, NON_ROUND_TRIP_MARKER,
    SPECIAL_NON_STARTER_DECOMPOSITION_MARKER_U16, in_inclusive_range, ha, hb]
  norm_num
  rw [show (832 ≤ c.toNat → 3969 < c.toNat) = ¬(832 ≤ c.toNat ∧ c.toNat ≤ 3969) from
    propext (by omega)]
  split_ifs <;> first | rfl | omega | exact fun _ => rfl

/-- Counterexample for C3 as stated: the claim counts "exactly six
specific code points", but seven pairwise-distinct code points receive
hard-coded non-`Default` results in the special-non-starter category. -/
theorem claim_C3_counterexample :
    specialMarkerDecomposition.decompose_non_hangul (Char.ofNat 0x0340) =
        Decomposed.Singleton (Char.ofNat 0x0300) ∧
    specialMarkerDecomposition.decompose_non_hangul (Char.ofNat 0x0341) =
        Decomposed.Singleton (Char.ofNat 0x0301) ∧
    specialMarkerDecomposition.decompose_non_hangul (Char.ofNat 0x0343) =
        Decomposed.Singleton (Char.ofNat 0x0313) ∧
    specialMarkerDecomposition.decompose_non_hangul (Char.ofNat 0x0344) =
        Decomposed.Expansion (Char.ofNat 0x0308) (Char.ofNat 0x0301) ∧
    specialMarkerDecomposition.decompose_non_hangul (Char.ofNat 0x0F73) =
        Decomposed.Expansion (Char.ofNat 0x0F71) (Char.ofNat 0x0F72) ∧
    specialMarkerDecomposition.decompose_non_hangul (Char.ofNat 0x0F75) =
        Decomposed.Expansion (Char.ofNat 0x0F71) (Char.ofNat 0x0F74) ∧
    specialMarkerDecomposition.decompose_non_hangul (Char.ofNat 0x0F81) =
        Decomposed.Expansion (Char.ofNat 0x0F71) (Char.ofNat 0x0F80) ∧
    List.Nodup [0x0340, 0x0341, 0x0343, 0x0344, 0x0F73, 0x0F75, 0x0F81] ∧
    List.length [0x0340, 0x0341, 0x0343, 0x0344, 0x0F73, 0x0F75, 0x0F81] = 7 := by
  decide

/-- Witness for C3: the amended characterization applied at U+0345, a
code point in the category but not in the hard-coded table. -/
theorem claim_C3_witness :
    specialMarkerDecomposition.decompose_non_hangul (Char.ofNat 0x0345) =
      Decomposed.Default := by
  have h := claim_C3_special_non_starter specialMarkerDecomposition
    (Char.ofNat 0x0345) (by decide)
  simpa using h

/-- C8: `decompose` is total (every result is one of the three
`Decomposed` forms), and the out-of-bounds offsets of the complex
decode and of the supplement decode degrade to `Default`: a 16-bit
offset whose successor is past `scalars16`, a 24-bit offset past
`scalars24`, a zero supplement-trie value, and a supplement offset past
the supplement's `scalars24` all yield `Decomposed.Default`. -/
theorem claim_C8_total_and_gigo_default :
    (∀ (d : CanonicalDecomposition) (c : Char),
      d.decompose c = Decomposed.Default ∨
      (∃ a, d.decompose c = Decomposed.Singleton a) ∨
      (∃ a b, d.decompose c = Decomposed.Expansion a b)) ∧
    (∀ (d : CanonicalDecomposition) (c : Char),
      d.decompositions.trie c.toNat % 4294967296 > BACKWARD_COMBINING_STARTER_MARKER →
      d.decompositions.trie c.toNat % 4294967296 % 65536 ≤ NON_ROUND_TRIP_MARKER →
      c.toNat ≠ 0x212B →
      d.decompositions.trie c.toNat % 4294967296 / 65536 % 4096 <
        d.tables.scalars16.length →
      d.decompositions.trie c.toNat % 4294967296 / 65536 / 8192 = 0 →
      d.tables.scalars16[d.decompositions.trie c.toNat % 4294967296 / 65536 % 4096 + 1]? =
        none →
      d.decompose_non_hangul c = Decomposed.Default) ∧
    (∀ (d : CanonicalDecomposition) (c : Char),
      d.decompositions.trie c.toNat % 4294967296 > BACKWARD_COMBINING_STARTER_MARKER →
      d.decompositions.trie c.toNat % 4294967296 % 65536 ≤ NON_ROUND_TRIP_MARKER →
      c.toNat ≠ 0x212B →
      ¬ (d.decompositions.trie c.toNat % 4294967296 / 65536 % 4096 <
        d.tables.scalars16.length) →
      d.decompositions.trie c.toNat % 4294967296 / 65536 / 8192 + 1 ≤ 2 →
      d.tables.scalars24[d.decompositions.trie c.toNat % 4294967296 / 65536 % 4096 -
        d.tables.scalars16.length]? = none →
      d.decompose_non_hangul c = Decomposed.Default) ∧
    (∀ (d : CanonicalDecomposition) (c : Char),
      d.non_recursive.trie c.toNat % 4294967296 = 0 →
      d.decomposeSupplement c = Decomposed.Default) ∧
    (∀ (d : CanonicalDecomposition) (c : Char),
      d.non_recursive.trie c.toNat % 4294967296 ≠ 0 →
      d.non_recursive.trie c.toNat % 4294967296 % 65536 = 0 →
      d.non_recursive.scalars24[d.non_recursive.trie c.toNat % 4294967296 / 65536 - 1]? =
        none →
      d.decomposeSupplement c = Decomposed.Default) := by
  refine ⟨?_, ?_, ?_, ?_, ?_⟩
  · intro d c
    match h : d.decompose c with
    | Decomposed.Default => exact Or.inl rfl
    | Decomposed.Singleton a => exact Or.inr (Or.inl ⟨a, rfl⟩)
    | Decomposed.Expansion a b => exact Or.inr (Or.inr ⟨a, b, rfl⟩)
  · intro d c h1 h2 h3 h4 h5 h6
    simp only [BACKWARD_COMBINING_STARTER_MARKER, NON_ROUND_TRIP_MARKER] at h1 h2
    simp only [CanonicalDecomposition.decompose_non_hangul,
      BACKWARD_COMBINING_STARTER_MARKER, NON_ROUND_TRIP_MARKER,
      SPECIAL_NON_STARTER_DECOMPOSITION_MARKER_U16]
    rw [if_neg (by omega), if_neg (by rintro ⟨hh, -⟩; omega), if_neg (by omega),
      if_neg h3, if_pos h4, if_neg (by omega), h6]
    rcases d.tables.scalars16[d.decompositions.trie c.toNat % 4294967296 / 65536 % 4096]?
      with _ | f <;> rfl
  · intro d c h1 h2 h3 h4 h5 h6
    simp only [BACKWARD_COMBINING_STARTER_MARKER, NON_ROUND_TRIP_MARKER] at h1 h2
    simp only [CanonicalDecomposition.decompose_non_hangul,
      BACKWARD_COMBINING_STARTER_MARKER, NON_ROUND_TRIP_MARKER,
      SPECIAL_NON_STARTER_DECOMPOSITION_MARKER_U16]
    rw [if_neg (by omega), if_neg (by rintro ⟨hh, -⟩; omega), if_neg (by omega),
      if_neg h3, if_neg h4, if_neg (by omega), h6]
  · intro d c h1
    simp only [CanonicalDecomposition.decomposeSupplement]
    rw [if_pos h1]
  · intro d c h1 h2 h3
    simp only [CanonicalDecomposition.decomposeSupplement]
    rw [if_neg h1, if_neg (by rintro ⟨hh, -⟩; omega), if_neg (by omega), h3]

/-- Witness for C8: each defensive conjunct evaluated on a concrete
data instance with a deliberately truncated table. -/
theorem claim_C8_witness :
    ({ decompositions := { trie := fun _ => 0x10000000 }
       tables := { scalars16 := [0x0041], scalars24 := [] }
       non_recursive := { trie := fun _ => 0, scalars24 := [] } } :
        CanonicalDecomposition).decompose_non_hangul (Char.ofNat 0x2000) =
      Decomposed.Default ∧
    ({ decompositions := { trie := fun _ => 0 }
       tables := { scalars16 := [], scalars24 := [] }
       non_recursive := { trie := fun _ => 0, scalars24 := [] } } :
        CanonicalDecomposition).decomposeSupplement (Char.ofNat 0x2000) =
      Decomposed.Default := by
  constructor
  · exact claim_C8_total_and_gigo_default.2.1 _ (Char.ofNat 0x2000) (by decide) (by decide)
      (by decide) (by decide) (by decide) (by decide)
  · exact claim_C8_total_and_gigo_default.2.2.2.1 _ (Char.ofNat 0x2000) (by decide)

/-- A data-loading failure surfaced by the provider; its payload is
irrelevant to the claims, so it is a single-constructor type. -/
inductive DataError where
  | missing : DataError
deriving DecidableEq

/-- `NormalizerError` from the normalizer crate: a pass-through
data-loading error or the future-format capacity error. -/
inductive NormalizerError where
  | Data : DataError → NormalizerError
  | FutureExtension : NormalizerError
deriving DecidableEq

/-- The data provider seen by `try_new_unstable`: one keyed load per
marker type, each able to fail with a data error. -/
structure NormalizerDataProvider where
  loadDecompositionData : Except DataError CanonicalDecompositionData
  loadDecompositionTables : Except DataError CanonicalDecompositionTables
  loadNonRecursiveSupplement : Except DataError NonRecursiveDecompositionSupplement

/-- `CanonicalDecomposition::try_new_unstable` from `properties.rs`:
loads the decomposition data and tables, fails with `FutureExtension`
when `scalars16.len() + scalars24.len() > 0xFFF`, then loads the
non-recursive supplement. -/
def try_new_unstable (p : NormalizerDataProvider) :
    Except NormalizerError CanonicalDecomposition :=
  match p.loadDecompositionData with
  | Except.error e => Except.error (NormalizerError.Data e)
  | Except.ok decompositions =>
    match p.loadDecompositionTables with
    | Except.error e => Except.error (NormalizerError.Data e)
    | Except.ok tables =>
      if tables.scalars16.length + tables.scalars24.length > 0xFFF then
        Except.error NormalizerError.FutureExtension
      else
        match p.loadNonRecursiveSupplement with
        | Except.error e => Except.error (NormalizerError.Data e)
        | Except.ok non_recursive => Except.ok { decompositions, tables, non_recursive }

/-- C6: when the decomposition data and tables load, construction fails
with `FutureExtension` if and only if
`scalars16.len() + scalars24.len() > 4095`; a successful construction
carries tables whose lengths sum to at most 4095. -/
theorem claim_C6_future_extension (p : NormalizerDataProvider)
    (d : CanonicalDecompositionData) (t : CanonicalDecompositionTables)
    (hd : p.loadDecompositionData = Except.ok d)
    (ht : p.loadDecompositionTables = Except.ok t) :
    (try_new_unstable p = Except.error NormalizerError.FutureExtension ↔
      t.scalars16.length + t.scalars24.length > 4095) ∧
    ∀ cd, try_new_unstable p = Except.ok cd →
      cd.tables.scalars16.length + cd.tables.scalars24.length ≤ 4095 := by
  constructor
  · unfold try_new_unstable
    rw [hd, ht]
    dsimp only
    by_cases hc : t.scalars16.length + t.scalars24.length > 0xFFF
    · rw [if_pos hc]
      simpa using hc
    · rw [if_neg hc]
      rcases hnr : p.loadNonRecursiveSupplement with e | n <;> simp <;> omega
  · intro cd hok
    unfold try_new_unstable at hok
    rw [hd, ht] at hok
    dsimp only at hok
    by_cases hc : t.scalars16.length + t.scalars24.length > 0xFFF
    · rw [if_pos hc] at hok
      exact absurd hok (by simp)
    · rw [if_neg hc] at hok
      rcases hnr : p.loadNonRecursiveSupplement with e | n <;> rw [hnr] at hok
      · exact absurd hok (by simp)
      · simp only [Except.ok.injEq] at hok
        subst hok
        simpa using hc

/-- Witness for C6: a provider whose tables hold 4096 scalars is
refused with `FutureExtension`. -/
theorem claim_C6_witness :
    try_new_unstable
      { loadDecompositionData := Except.ok { trie := fun _ => 0 }
        loadDecompositionTables :=
          Except.ok { scalars16 := List.replicate 4000 0, scalars24 := List.replicate 96 0 }
        loadNonRecursiveSupplement := Except.ok { trie := fun _ => 0, scalars24 := [] } } =
      Except.error NormalizerError.FutureExtension :=
  (claim_C6_future_extension _ _ _ rfl rfl).1.mpr (by
    simp only [List.length_replicate]
    norm_num)

/-- Modelled from the spec / `lib.rs`: the predicate detecting that a
trie value directly encodes a canonical combining class; non-starters
carry `0xD800 | ccc`, so the value's bits above the low byte spell
`0xD8`. -/
def trie_value_has_ccc (trie_value : Nat) : Bool :=
  trie_value &&& 0xFFFFFF00 == 0xD800

/-- Modelled from the spec / `lib.rs`: the predicate detecting the
special-non-starter-decomposition marker value. -/
def trie_value_indicates_special_non_starter_decomposition (trie_value : Nat) : Bool :=
  trie_value == SPECIAL_NON_STARTER_DECOMPOSITION_MARKER

/-- `CanonicalCombiningClass` from `icu_properties`: a newtype over the
`u8` combining class. -/
structure CanonicalCombiningClass where
  val : Nat
deriving DecidableEq, Repr

/-- Combining class 0. -/
def CanonicalCombiningClass.NotReordered : CanonicalCombiningClass := ⟨0⟩

/-- Combining class 230. -/
def CanonicalCombiningClass.Above : CanonicalCombiningClass := ⟨230⟩

/-- `CanonicalCombiningClassMap` from `properties.rs`: wraps the
decomposition-data trie. -/
structure CanonicalCombiningClassMap where
  decompositions : CanonicalDecompositionData

namespace CanonicalCombiningClassMap

/-- `get_u32` from `properties.rs`: look up the canonical combining
class for a scalar value represented as `u32`. -/
def get_u32 (self : CanonicalCombiningClassMap) (c : Nat) : CanonicalCombiningClass :=
  let trie_value := self.decompositions.trie c % 4294967296
  if trie_value_has_ccc trie_value then
    ⟨trie_value % 256⟩
  else if trie_value_indicates_special_non_starter_decomposition trie_value then
    if c = 0x0340 ∨ c = 0x0341 ∨ c = 0x0343 ∨ c = 0x0344 then
      CanonicalCombiningClass.Above
    else
      CanonicalCombiningClass.NotReordered
  else
    CanonicalCombiningClass.NotReordered

/-- `get` from `properties.rs`: look up the canonical combining class
for a scalar value. -/
def get (self : CanonicalCombiningClassMap) (c : Char) : CanonicalCombiningClass :=
  self.get_u32 c.toNat

end CanonicalCombiningClassMap

/-- A combining-class map with sample data: U+0301 carries
`0xD800 | 230`, everything else carries no decomposition. -/
def sampleCccMap : CanonicalCombiningClassMap :=
  { decompositions := { trie := fun n => if n = 0x0301 then 0xD8E6 else 0 } }

/-- C7: `get_u32 c` is the trie value's low byte as a combining class
when the trie value directly encodes one; otherwise, on the
special-non-starter marker it is `Above` exactly for
U+0340/U+0341/U+0343/U+0344 and `NotReordered` for every other code
point; otherwise it is `NotReordered`.  In particular `get 'a'` is
`NotReordered` and `get_u32 0x0301` is `Above` on the sample data. -/
theorem claim_C7_combining_class (m : CanonicalCombiningClassMap) (c : Nat) :
    (trie_value_has_ccc (m.decompositions.trie c % 4294967296) = true →
      m.get_u32 c = ⟨m.decompositions.trie c % 4294967296 % 256⟩) ∧
    (trie_value_has_ccc (m.decompositions.trie c % 4294967296) = false →
      trie_value_indicates_special_non_starter_decomposition
        (m.decompositions.trie c % 4294967296) = true →
      m.get_u32 c =
        if c = 0x0340 ∨ c = 0x0341 ∨ c = 0x0343 ∨ c = 0x0344 then
          CanonicalCombiningClass.Above
        else
          CanonicalCombiningClass.NotReordered) ∧
    (trie_value_has_ccc (m.decompositions.trie c % 4294967296) = false →
      trie_value_indicates_special_non_starter_decomposition
        (m.decompositions.trie c % 4294967296) = false →
      m.get_u32 c = CanonicalCombiningClass.NotReordered) ∧
    sampleCccMap.get (Char.ofNat 0x61) = CanonicalCombiningClass.NotReordered ∧
    sampleCccMap.get_u32 0x0301 = CanonicalCombiningClass.Above := by
  refine ⟨?_, ?_, ?_, by decide, by decide⟩
  · intro h
    simp only [CanonicalCombiningClassMap.get_u32, h]
    rfl
  · intro h1 h2
    simp only [CanonicalCombiningClassMap.get_u32, h1, h2]
    rfl
  · intro h1 h2
    simp only [CanonicalCombiningClassMap.get_u32, h1, h2]
    rfl

/-- Witness for C7: the first conjunct applied to the sample data at
U+0301 (the combining acute accent). -/
theorem claim_C7_witness :
    sampleCccMap.get_u32 0x0301 = ⟨sampleCccMap.decompositions.trie 0x0301 % 4294967296 % 256⟩ :=
  (claim_C7_combining_class sampleCccMap 0x0301).1 (by decide)

/-! ### The BCP-47 language-identifier parser
(`components/locid/src/parser/langid.rs`).  Subtags are modelled as
`String`s; the subtag validators (`Language::from_bytes` and friends)
live in the `subtags` modules, which are not part of the excerpt, and
are modelled from the spec's grammar. -/

/-- `ParserError` from the locid parser. -/
inductive ParserError where
  | InvalidLanguage : ParserError
  | InvalidSubtag : ParserError
deriving DecidableEq, Repr

/-- `ParserMode` from `langid.rs`. -/
inductive ParserMode where
  | LanguageIdentifier : ParserMode
  | Locale : ParserMode
  | Partial : ParserMode
deriving DecidableEq, Repr

/-- `ParserPosition` from `langid.rs`. -/
inductive ParserPosition where
  | Script : ParserPosition
  | Region : ParserPosition
  | Variant : ParserPosition
deriving DecidableEq, Repr

/-- Equality on `Except` results is decidable componentwise. -/
instance {m n : Type} [DecidableEq m] [DecidableEq n] : DecidableEq (Except m n) := fun a b =>
  match a, b with
  | Except.error x, Except.error y =>
    if h : x = y then Decidable.isTrue (by rw [h])
    else Decidable.isFalse (fun he => h (by injection he))
  | Except.error _, Except.ok _ => Decidable.isFalse (fun he => by injection he)
  | Except.ok _, Except.error _ => Decidable.isFalse (fun he => by injection he)
  | Except.ok x, Except.ok y =>
    if h : x = y then Decidable.isTrue (by rw [h])
    else Decidable.isFalse (fun he => h (by injection he))

/-- ASCII letter. -/
def isAsciiAlphabetic (c : Char) : Bool :=
  ('a' ≤ c && c ≤ 'z') || ('A' ≤ c && c ≤ 'Z')

/-- ASCII digit. -/
def isAsciiDigit (c : Char) : Bool :=
  '0' ≤ c && c ≤ '9'

/-- ASCII letter or digit. -/
def isAsciiAlphanumeric (c : Char) : Bool :=
  isAsciiAlphabetic c || isAsciiDigit c

/-- Modelled from the spec: a language subtag is 2-3 or 5-8 ASCII
letters (length 4 is reserved), normalised to lowercase. -/
def Language.from_bytes (s : String) : Option String :=
  if 2 ≤ s.length ∧ s.length ≤ 8 ∧ s.length ≠ 4 ∧ s.toList.all isAsciiAlphabetic then
    some (String.mk (s.toList.map Char.toLower))
  else
    none

/-- Modelled from the spec: a script subtag is exactly 4 ASCII letters,
normalised to title case. -/
def Script.from_bytes (s : String) : Option String :=
  if s.length = 4 ∧ s.toList.all isAsciiAlphabetic then
    match s.toList with
    | [] => none
    | ch :: rest => some (String.mk (Char.toUpper ch :: rest.map Char.toLower))
  else
    none

/-- Modelled from the spec: a region subtag is 2 ASCII letters
(normalised to uppercase) or 3 ASCII digits. -/
def Region.from_bytes (s : String) : Option String :=
  if s.length = 2 ∧ s.toList.all isAsciiAlphabetic then
    some (String.mk (s.toList.map Char.toUpper))
  else if s.length = 3 ∧ s.toList.all isAsciiDigit then
    some s
  else
    none

/-- Modelled from the spec: a variant subtag is 5-8 ASCII alphanumerics,
or 4 alphanumerics starting with a digit; normalised to lowercase. -/
def Variant.from_bytes (s : String) : Option String :=
  if (5 ≤ s.length ∧ s.length ≤ 8 ∧ s.toList.all isAsciiAlphanumeric) ∨
      (s.length = 4 ∧ s.toList.all isAsciiAlphanumeric ∧
        (s.toList.head?.elim false isAsciiDigit)) then
    some (String.mk (s.toList.map Char.toLower))
  else
    none

/-- Splitter for `get_subtag_iterator`: cuts the input on `-` and `_`,
keeping empty pieces (an empty input yields one empty subtag). -/
def splitSubtagsAux : List Char → List Char → List String
  | [], acc => [String.mk acc.reverse]
  | ch :: rest, acc =>
    if ch = '-' ∨ ch = '_' then
      String.mk acc.reverse :: splitSubtagsAux rest []
    else
      splitSubtagsAux rest (ch :: acc)

/-- `get_subtag_iterator` from the locid parser, as the list of subtags
it yields. -/
def get_subtag_iterator (s : String) : List String :=
  splitSubtagsAux s.toList []

/-- Kernel-computable lexicographic comparison of character lists; the
byte order `Ord` of the `TinyAsciiStr`-backed subtags. -/
def char_list_lt : List Char → List Char → Bool
  | [], [] => false
  | [], _ :: _ => true
  | _ :: _, [] => false
  | a :: as, b :: bs =>
    if a < b then true
    else if b < a then false
    else char_list_lt as bs

/-- The byte order on subtags, as the Rust `Ord` of `Variant`
(`TinyAsciiStr` bytes) compares them. -/
def variant_lt (a b : String) : Bool :=
  char_list_lt a.toList b.toList

/-- Modelled from the Rust standard library contract of
`slice::binary_search` on a sorted, deduplicated slice: `Ok i` when the
`i`-th element equals the probe, `Err i` with the insertion index that
keeps the order otherwise.  Realised as a left-to-right scan, which is
extensionally the documented behaviour on sorted inputs. -/
def binary_search : List String → String → Except Nat Nat
  | [], _ => Except.error 0
  | x :: rest, v =>
    if variant_lt x v then
      match binary_search rest v with
      | Except.ok i => Except.ok (i + 1)
      | Except.error i => Except.error (i + 1)
    else if x = v then
      Except.ok 0
    else
      Except.error 0

/-- `LanguageIdentifier` from the locid crate: language, optional
script, optional region and the ordered variant list. -/
structure LanguageIdentifier where
  language : String
  script : Option String
  region : Option String
  variants : List String
deriving DecidableEq, Repr

/-- The `while let Some(subtag) = iter.peek()` loop of
`parse_language_identifier_from_iter` (`langid.rs` lines 44-92), as a
recursion over the remaining subtags carrying the state
`(script, region, variants, position)`. -/
def parse_loop (mode : ParserMode) : List String → Option String → Option String →
    List String → ParserPosition →
    Except ParserError (Option String × Option String × List String)
  | [], script, region, variants, _ => Except.ok (script, region, variants)
  | subtag :: rest, script, region, variants, position =>
    if mode ≠ ParserMode.LanguageIdentifier ∧ subtag.length = 1 then
      Except.ok (script, region, variants)
    else if position = ParserPosition.Script then
      match Script.from_bytes subtag with
      | some s => parse_loop mode rest (some s) region variants ParserPosition.Region
      | none =>
        match Region.from_bytes subtag with
        | some r => parse_loop mode rest script (some r) variants ParserPosition.Variant
        | none =>
          match Variant.from_bytes subtag with
          | some v =>
            match binary_search variants v with
            | Except.error idx =>
                parse_loop mode rest script region (variants.insertIdx idx v)
                  ParserPosition.Variant
            | Except.ok _ =>
                parse_loop mode rest script region variants ParserPosition.Variant
          | none =>
            if mode = ParserMode.Partial then
              Except.ok (script, region, variants)
            else
              Except.error ParserError.InvalidSubtag
    else if position = ParserPosition.Region then
      match Region.from_bytes subtag with
      | some r => parse_loop mode rest script (some r) variants ParserPosition.Variant
      | none =>
        match Variant.from_bytes subtag with
        | some v =>
          match binary_search variants v with
          | Except.error idx =>
              parse_loop mode rest script region (variants.insertIdx idx v)
                ParserPosition.Variant
          | Except.ok _ =>
              parse_loop mode rest script region variants ParserPosition.Variant
        | none =>
          if mode = ParserMode.Partial then
            Except.ok (script, region, variants)
          else
            Except.error ParserError.InvalidSubtag
    else
      match Variant.from_bytes subtag with
      | some v =>
        match binary_search variants v with
        | Except.error idx =>
            parse_loop mode rest script region (variants.insertIdx idx v)
              ParserPosition.Variant
        | Except.ok _ => Except.error ParserError.InvalidSubtag
      | none =>
        if mode = ParserMode.Partial then
          Except.ok (script, region, variants)
        else
          Except.error ParserError.InvalidSubtag

/-- `parse_language_identifier` from `langid.rs`: the first subtag must
be a language (else `InvalidLanguage`), the rest feed the position
state machine. -/
def parse_language_identifier (t : String) (mode : ParserMode) :
    Except ParserError LanguageIdentifier :=
  match get_subtag_iterator t with
  | [] => Except.error ParserError.InvalidLanguage
  | subtag :: rest =>
    match Language.from_bytes subtag with
    | none => Except.error ParserError.InvalidLanguage
    | some language =>
      match parse_loop mode rest none none [] ParserPosition.Script with
      | Except.error e => Except.error e
      | Except.ok (script, region, variants) =>
          Except.ok { language, script, region, variants }

/-- `char_list_lt` agrees with the lexicographic order on character
lists. -/
theorem char_list_lt_iff_lex :
    ∀ l₁ l₂ : List Char, char_list_lt l₁ l₂ = true ↔ List.Lex (· < ·) l₁ l₂
  | [], [] =>
    iff_of_false (by simp [char_list_lt]) (List.Lex.not_nil_right _ _)
  | [], _ :: _ =>
    iff_of_true (by simp [char_list_lt]) List.Lex.nil
  | _ :: _, [] =>
    iff_of_false (by simp [char_list_lt]) (List.Lex.not_nil_right _ _)
  | a :: as, b :: bs => by
    simp only [char_list_lt]
    by_cases hab : a < b
    · rw [if_pos hab]
      exact iff_of_true rfl (List.Lex.rel hab)
    · rw [if_neg hab]
      by_cases hba : b < a
      · rw [if_pos hba]
        refine iff_of_false (by simp) ?_
        intro h
        cases h with
        | cons h' => exact absurd hba (lt_irrefl _)
        | rel h' => exact absurd h' hab
      · rw [if_neg hba]
        have hable : a = b := le_antisymm (not_lt.mp hba) (not_lt.mp hab)
        subst hable
        rw [char_list_lt_iff_lex as bs]
        exact (List.Lex.cons_iff).symm

/-- `variant_lt` agrees with the standard strict order on `String`. -/
theorem variant_lt_iff (a b : String) : variant_lt a b = true ↔ a < b := by
  rw [variant_lt, char_list_lt_iff_lex, String.lt_iff_toList_lt]
  exact Iff.rfl

/-- A `binary_search` insertion index is within bounds. -/
theorem binary_search_err_le (v : String) :
    ∀ (l : List String) (i : Nat), binary_search l v = Except.error i → i ≤ l.length := by
  intro l
  induction l with
  | nil =>
    intro i h
    simp only [binary_search, Except.error.injEq] at h
    omega
  | cons x rest ih =>
    intro i h
    simp only [binary_search] at h
    by_cases hlt : variant_lt x v = true
    · rw [if_pos hlt] at h
      cases hr : binary_search rest v with
      | ok j => rw [hr] at h; simp at h
      | error j =>
        rw [hr] at h
        simp only [Except.error.injEq] at h
        have := ih j hr
        simp only [List.length_cons]
        omega
    · rw [if_neg hlt] at h
      by_cases heq : x = v
      · rw [if_pos heq] at h; simp at h
      · rw [if_neg heq] at h
        simp only [Except.error.injEq] at h
        omega

/-- Inserting at a `binary_search` insertion index preserves strict
sortedness. -/
theorem sorted_insertIdx_of_err (v : String) :
    ∀ (l : List String) (i : Nat), List.Sorted (· < ·) l →
      binary_search l v = Except.error i →
      List.Sorted (· < ·) (l.insertIdx i v) := by
  intro l
  induction l with
  | nil =>
    intro i hs h
    simp only [binary_search, Except.error.injEq] at h
    subst h
    simp
  | cons x rest ih =>
    intro i hs h
    simp only [binary_search] at h
    rcases List.sorted_cons.mp hs with ⟨hx, hs'⟩
    by_cases hlt : variant_lt x v = true
    · rw [if_pos hlt] at h
      cases hr : binary_search rest v with
      | ok j => rw [hr] at h; simp at h
      | error j =>
        rw [hr] at h
        simp only [Except.error.injEq] at h
        subst h
        rw [List.insertIdx_succ_cons]
        refine List.sorted_cons.mpr ⟨?_, ih j hs' hr⟩
        intro y hy
        rcases (List.mem_insertIdx (binary_search_err_le v rest j hr)).mp hy with rfl | hy'
        · exact (variant_lt_iff x y).mp hlt
        · exact hx y hy'
    · rw [if_neg hlt] at h
      by_cases heq : x = v
      · rw [if_pos heq] at h; simp at h
      · rw [if_neg heq] at h
        simp only [Except.error.injEq] at h
        subst h
        rw [List.insertIdx_zero]
        refine List.sorted_cons.mpr ⟨?_, hs⟩
        intro y hy
        have hvx : v < x := by
          rcases lt_trichotomy x v with h1 | h1 | h1
          · exact absurd ((variant_lt_iff x v).mpr h1) (by simpa using hlt)
          · exact absurd h1 heq
          · exact h1
        rcases List.mem_cons.mp hy with rfl | hy'
        · exact hvx
        · exact lt_trans hvx (hx y hy')

/-- On a sorted list, `binary_search` finds every member. -/
theorem binary_search_ok_of_mem (v : String) :
    ∀ (l : List String), List.Sorted (· < ·) l → v ∈ l →
      ∃ i, binary_search l v = Except.ok i := by
  intro l
  induction l with
  | nil =>
    intro _ hv
    cases hv
  | cons x rest ih =>
    intro hs hv
    rcases List.sorted_cons.mp hs with ⟨hx, hs'⟩
    simp only [binary_search]
    by_cases hlt : variant_lt x v = true
    · rw [if_pos hlt]
      have hxv : x < v := (variant_lt_iff x v).mp hlt
      have hv' : v ∈ rest := by
        rcases List.mem_cons.mp hv with rfl | h'
        · exact absurd hxv (lt_irrefl v)
        · exact h'
      obtain ⟨j, hj⟩ := ih hs' hv'
      exact ⟨j + 1, by rw [hj]⟩
    · rw [if_neg hlt]
      by_cases heq : x = v
      · rw [if_pos heq]
        exact ⟨0, rfl⟩
      · exfalso
        rcases List.mem_cons.mp hv with rfl | h'
        · exact heq rfl
        · exact hlt ((variant_lt_iff x v).mpr (hx v h'))

/-- The parser loop keeps the variant list strictly sorted. -/
theorem parse_loop_sorted_invariant (mode : ParserMode) :
    ∀ (subtags : List String) (script region : Option String) (variants : List String)
      (position : ParserPosition) (s r : Option String) (vs : List String),
      List.Sorted (· < ·) variants →
      parse_loop mode subtags script region variants position = Except.ok (s, r, vs) →
      List.Sorted (· < ·) vs := by
  intro subtags
  induction subtags with
  | nil =>
    intro script region variants position s r vs hs h
    simp only [parse_loop, Except.ok.injEq, Prod.mk.injEq] at h
    obtain ⟨-, -, h3⟩ := h
    subst h3
    exact hs
  | cons subtag rest ih =>
    intro script region variants position s r vs hs h
    simp only [parse_loop] at h
    repeat' split at h
    all_goals first
      | (simp only [Except.ok.injEq, Prod.mk.injEq] at h
         obtain ⟨-, -, h3⟩ := h
         subst h3
         exact hs)
      | simp at h
      | exact ih _ _ _ _ _ _ _ hs h
      | exact ih _ _ _ _ _ _ _ (sorted_insertIdx_of_err _ _ _ hs (by assumption)) h

/-- C4: for every input accepted by the parser, the variants of the
returned `LanguageIdentifier` are in ascending sorted order (the order
produced by binary-search insertion), not in first-seen order; in
particular `"en-fonipa-alalc97"` parses to the variants
`["alalc97", "fonipa"]`. -/
theorem claim_C4_variants_sorted :
    (∀ (t : String) (mode : ParserMode) (lid : LanguageIdentifier),
      parse_language_identifier t mode = Except.ok lid →
      List.Sorted (· < ·) lid.variants) ∧
    parse_language_identifier "en-fonipa-alalc97" ParserMode.LanguageIdentifier =
      Except.ok { language := "en", script := none, region := none,
                  variants := ["alalc97", "fonipa"] } := by
  constructor
  · intro t mode lid h
    unfold parse_language_identifier at h
    rcases hit : get_subtag_iterator t with - | ⟨subtag, rest⟩ <;> rw [hit] at h <;>
      dsimp only at h
    · simp at h
    · cases hlang : Language.from_bytes subtag with
      | none => rw [hlang] at h; simp at h
      | some language =>
        rw [hlang] at h
        cases hloop : parse_loop mode rest none none [] ParserPosition.Script with
        | error e => rw [hloop] at h; simp at h
        | ok tpl =>
          obtain ⟨s, r, vs⟩ := tpl
          rw [hloop] at h
          simp only [Except.ok.injEq] at h
          subst h
          exact parse_loop_sorted_invariant mode rest none none [] ParserPosition.Script
            s r vs (by simp) hloop
  · decide

/-- Witness for C4: the sortedness conclusion applied to the parse of
`"en-fonipa-alalc97"`. -/
theorem claim_C4_witness :
    List.Sorted (· < ·)
      (LanguageIdentifier.variants
        { language := "en", script := none, region := none,
          variants := ["alalc97", "fonipa"] }) :=
  claim_C4_variants_sorted.1 "en-fonipa-alalc97" ParserMode.LanguageIdentifier _
    claim_C4_variants_sorted.2

/-- C5: in the `Variant` position, a subtag that parses as a variant
already present in the sorted variant set makes the parser fail with
`InvalidSubtag`; in particular `"en-fonipa-fonipa"` is rejected with
`InvalidSubtag`. -/
theorem claim_C5_duplicate_variant :
    (∀ (mode : ParserMode) (subtag : String) (rest : List String)
       (script region : Option String) (variants : List String) (v : String),
      (mode = ParserMode.LanguageIdentifier ∨ subtag.length ≠ 1) →
      Variant.from_bytes subtag = some v →
      List.Sorted (· < ·) variants →
      v ∈ variants →
      parse_loop mode (subtag :: rest) script region variants ParserPosition.Variant =
        Except.error ParserError.InvalidSubtag) ∧
    parse_language_identifier "en-fonipa-fonipa" ParserMode.LanguageIdentifier =
      Except.error ParserError.InvalidSubtag := by
  constructor
  · intro mode subtag rest script region variants v hmode hv hs hmem
    simp only [parse_loop]
    rw [if_neg (by
      rintro ⟨h1, h2⟩
      rcases hmode with h | h
      · exact h1 h
      · exact h h2)]
    rw [if_neg (by simp), if_neg (by simp), hv]
    dsimp only
    obtain ⟨i, hi⟩ := binary_search_ok_of_mem v variants hs hmem
    rw [hi]
  · decide

/-- Witness for C5: a duplicate variant in `Variant` position on a
concrete state. -/
theorem claim_C5_witness :
    parse_loop ParserMode.LanguageIdentifier ["fonipa"] none none ["fonipa"]
      ParserPosition.Variant = Except.error ParserError.InvalidSubtag :=
  claim_C5_duplicate_variant.1 ParserMode.LanguageIdentifier "fonipa" [] none none
    ["fonipa"] "fonipa" (Or.inl rfl) (by decide) (List.sorted_singleton "fonipa")
    (by decide)

/-! ### Grapheme-cluster segmentation
(`experimental/segmenter/src/grapheme.rs`).  The rule-break iterator
core (`rule_segmenter.rs`) and the rule tables are not part of the
excerpt; the iteration protocol is modelled from the spec: the
iterator partitions the input into non-empty grapheme clusters (the
clustering itself is rule-table data, so it is abstract here) and
yields 0 followed by the cumulative end offset of each cluster, in the
width of the chosen encoding. -/

/-- The UTF-8 byte width of a scalar value (Rust `char::len_utf8`). -/
def utf8Len (c : Char) : Nat :=
  if c.toNat < 0x80 then 1
  else if c.toNat < 0x800 then 2
  else if c.toNat < 0x10000 then 3
  else 4

/-- The UTF-16 code-unit width used by
`GraphemeClusterBreakTypeUtf16::get_current_position_character_len`:
2 for supplementary-plane scalars, 1 otherwise. -/
def utf16Len (c : Char) : Nat :=
  if c.toNat ≥ 0x10000 then 2 else 1

/-- Modelled from the spec: the successive break positions after the
initial 0, each cluster contributing the sum of its elements' widths. -/
def breakPositionsAux (w : α → Nat) : List (List α) → Nat → List Nat
  | [], _ => []
  | cl :: rest, pos =>
    let next := pos + (cl.map w).sum
    next :: breakPositionsAux w rest next

/-- Modelled from the spec: the full break-position sequence of a
segmentation: 0, then the cumulative cluster end offsets. -/
def breakPositions (w : α → Nat) (clusters : List (List α)) : List Nat :=
  0 :: breakPositionsAux w clusters 0

/-- `segment_str` over a clustering of a UTF-8 string: byte offsets. -/
def segment_str (clusters : List (List Char)) : List Nat :=
  breakPositions utf8Len clusters

/-- `segment_latin1` over a clustering of a Latin-1 byte string: each
byte has width 1. -/
def segment_latin1 (clusters : List (List Nat)) : List Nat :=
  breakPositions (fun _ => 1) clusters

/-- `segment_utf16` over a clustering of a UTF-16 string: code-unit
offsets. -/
def segment_utf16 (clusters : List (List Char)) : List Nat :=
  breakPositions utf16Len clusters

/-- The break positions starting from `pos` form a strictly increasing
chain whose last element is `pos` plus the total width. -/
theorem breakPositionsAux_spec (w : α → Nat) :
    ∀ (clusters : List (List α)) (pos : Nat),
      (∀ cl ∈ clusters, cl ≠ []) →
      (∀ a ∈ clusters.flatten, 0 < w a) →
      List.Chain' (· < ·) (pos :: breakPositionsAux w clusters pos) ∧
      (pos :: breakPositionsAux w clusters pos).getLast? =
        some (pos + (clusters.flatten.map w).sum) := by
  intro clusters
  induction clusters with
  | nil =>
    intro pos h1 h2
    exact ⟨by simp [breakPositionsAux], by simp [breakPositionsAux]⟩
  | cons cl rest ih =>
    intro pos h1 h2
    have hcl : cl ≠ [] := h1 cl (by simp)
    have hsum : 0 < (cl.map w).sum := by
      rcases cl with - | ⟨a, as⟩
      · exact absurd rfl hcl
      · have ha : 0 < w a := h2 a (by simp)
        simp only [List.map_cons, List.sum_cons]
        omega
    have h1' : ∀ c ∈ rest, c ≠ [] := fun c hc => h1 c (by simp [hc])
    have h2' : ∀ a ∈ rest.flatten, 0 < w a := fun a ha => h2 a (by
      simp only [List.flatten_cons, List.mem_append]
      exact Or.inr ha)
    obtain ⟨ihc, ihl⟩ := ih (pos + (cl.map w).sum) h1' h2'
    constructor
    · simp only [breakPositionsAux]
      exact List.chain'_cons.mpr ⟨by omega, ihc⟩
    · simp only [breakPositionsAux]
      rw [List.getLast?_cons_cons, ihl]
      congr 1
      simp only [List.flatten_cons, List.map_append, List.sum_append]
      omega

/-- C9: for every positive-width clustering into non-empty clusters,
the break positions are finite, begin with 0, are strictly increasing
and end with the input's total length in the encoding's units; in
particular segmenting `"Hello 🗺"` by scalar values yields
`[0, 1, 2, 3, 4, 5, 6, 10]` and segmenting the Latin-1 bytes of
`"Hello World"` yields `[0, 1, ..., 11]`. -/
theorem claim_C9_break_positions :
    (∀ (α : Type) (w : α → Nat) (clusters : List (List α)),
      (∀ cl ∈ clusters, cl ≠ []) →
      (∀ a ∈ clusters.flatten, 0 < w a) →
      (breakPositions w clusters).head? = some 0 ∧
      List.Chain' (· < ·) (breakPositions w clusters) ∧
      (breakPositions w clusters).getLast? = some ((clusters.flatten.map w).sum)) ∧
    segment_str ("Hello 🗺".toList.map (fun c => [c])) = [0, 1, 2, 3, 4, 5, 6, 10] ∧
    segment_latin1 ("Hello World".toList.map (fun c => [c.toNat])) =
      [0, 1, 2, 3, 4, 5, 6, 7, 8, 9, 10, 11] := by
  refine ⟨?_, by decide, by decide⟩
  intro α w clusters h1 h2
  obtain ⟨hc, hl⟩ := breakPositionsAux_spec w clusters 0 h1 h2
  exact ⟨rfl, hc, by simpa using hl⟩

/-- Witness for C9: the invariant applied to a concrete two-cluster
segmentation. -/
theorem claim_C9_witness :
    (breakPositions utf8Len [['a'], ['b']]).head? = some 0 ∧
    List.Chain' (· < ·) (breakPositions utf8Len [['a'], ['b']]) ∧
    (breakPositions utf8Len [['a'], ['b']]).getLast? =
      some ((([['a'], ['b']] : List (List Char)).flatten.map utf8Len).sum) :=
  claim_C9_break_positions.1 Char utf8Len [['a'], ['b']] (by decide) (by decide)

end Icu4x
